import Mathlib

/-!
Verification development for the plugin version-staging and backup/restore
core of the `adapt-authoring-contentplugin` repository.

The JavaScript sources are shallowly embedded:
* the filesystem is a finite tree of named nodes (`FNode`); a base directory
  (`pluginDir`) is a list of named entries (`FS`);
* each of the five core operations (`getMostRecentBackup`,
  `backupPluginVersion`, `cleanupOldPluginBackups`, `restorePluginFromBackup`,
  `processPluginFiles`) is translated into an executable Lean function over
  this model, mirroring the original control flow branch by branch;
* the `semver` npm library calls (`semver.valid`, `semver.rcompare`) are
  embedded as a parser/comparator for Semantic Versioning 2.0.0 precedence,
  which is the documented behaviour of that library;
* `String.prototype.localeCompare` is modelled as code-point lexicographic
  string comparison; on the ASCII directory names handled here the two agree.
-/

namespace ContentPlugin

/-! ## Orderings on characters, strings and version structures -/

/-- Three-way comparison on naturals. -/
def natCompare (a b : Nat) : Ordering :=
  if a < b then .lt else if b < a then .gt else .eq

/-- Three-way comparison on characters by code point. -/
def charCompare (a b : Char) : Ordering :=
  natCompare a.toNat b.toNat

/-- Lexicographic three-way comparison on character lists. -/
def listCompare : List Char → List Char → Ordering
  | [], [] => .eq
  | [], _ :: _ => .lt
  | _ :: _, [] => .gt
  | a :: as, b :: bs =>
    match charCompare a b with
    | .eq => listCompare as bs
    | o => o

/-- Lexicographic (code-point) three-way comparison on strings; the model of
JavaScript `localeCompare` for the ASCII names in scope. -/
def strCompare (a b : String) : Ordering :=
  listCompare a.toList b.toList

/-- The sign convention of a JavaScript comparator return value. -/
def ordToInt : Ordering → Int
  | .lt => -1
  | .eq => 0
  | .gt => 1

/-! ## Semantic versions (model of the `semver` npm library)

`semver.valid` recognises an optional leading `v`, a dotted numeric
`major.minor.patch` core without leading zeros, an optional dash-separated
prerelease of dot-separated identifiers and an optional `+build` suffix.
`semver.rcompare a b` is `compare(b, a)` under SemVer 2.0.0 precedence.
(The library's 256-character and MAX_SAFE_INTEGER bounds are not modelled;
no token in scope approaches them.) -/

/-- A parsed semantic version: numeric core plus prerelease identifiers
(empty list = a release version). Build metadata is ignored by precedence
and is dropped at parse time. -/
structure Semver where
  major : Nat
  minor : Nat
  patch : Nat
  prerelease : List String
  deriving Repr, DecidableEq

/-- Digits-only string to its numeric value. -/
def digitsToNat (cs : List Char) : Nat :=
  cs.foldl (fun n c => n * 10 + (c.toNat - '0'.toNat)) 0

/-- A numeric identifier: nonempty, all digits, no leading zero
(`0` itself allowed). -/
def parseNumericIdent (s : String) : Option Nat :=
  let cs := s.toList
  if cs.isEmpty then none
  else if cs.all Char.isDigit then
    if cs.length > 1 && cs.headI = '0' then none else some (digitsToNat cs)
  else none

/-- A valid prerelease identifier: nonempty, alphanumerics and hyphens only,
and if all digits then no leading zero. -/
def validPrereleaseIdent (s : String) : Bool :=
  let cs := s.toList
  ¬ cs.isEmpty && cs.all (fun c => c.isAlphanum || c = '-') &&
    (¬ cs.all Char.isDigit || (parseNumericIdent s).isSome)

/-- A valid build identifier: nonempty, alphanumerics and hyphens only. -/
def validBuildIdent (s : String) : Bool :=
  let cs := s.toList
  ¬ cs.isEmpty && cs.all (fun c => c.isAlphanum || c = '-')

/-- Split a character list at every occurrence of a separator character
(the behaviour of `String.splitOn` with a one-character separator, spelled
out structurally). -/
def splitOnCharAux (sep : Char) : List Char → List Char → List (List Char)
  | [], acc => [acc.reverse]
  | c :: cs, acc =>
    if c = sep then acc.reverse :: splitOnCharAux sep cs []
    else splitOnCharAux sep cs (c :: acc)

/-- The value of `s.splitOn sep` for a one-character separator. -/
def splitOnChar (sep : Char) (s : String) : List String :=
  (splitOnCharAux sep s.toList []).map String.mk

/-- The value of `String.intercalate sep` on the lists produced above. -/
def joinWith (sep : String) : List String → String
  | [] => ""
  | [x] => x
  | x :: xs => x ++ sep ++ joinWith sep xs

/-- Split `core-prerelease` at the first dash. -/
def splitPrerelease (s : String) : String × Option String :=
  match splitOnChar '-' s with
  | [] => (s, none)
  | [c] => (c, none)
  | c :: rest => (c, some (joinWith "-" rest))

/-- Split `body+build` at a single plus; more than one plus is invalid. -/
def splitBuild (s : String) : Option (String × Option String) :=
  match splitOnChar '+' s with
  | [c] => some (c, none)
  | [c, b] => some (c, some b)
  | _ => none

/-- The model of `semver.parse` / `semver.valid` on a version token. -/
def semverParse (s : String) : Option Semver :=
  let s := if s.toList.headI = 'v' && ¬ s.toList.isEmpty
    then String.mk (s.toList.drop 1) else s
  match splitBuild s with
  | none => none
  | some (body, build) =>
    if (build.map (fun b => (splitOnChar '.' b).all validBuildIdent)).getD true then
      let (core, pre) := splitPrerelease body
      match splitOnChar '.' core with
      | [ma, mi, pa] =>
        match parseNumericIdent ma, parseNumericIdent mi, parseNumericIdent pa with
        | some major, some minor, some patch =>
          match pre with
          | none => some ⟨major, minor, patch, []⟩
          | some p =>
            let ids := splitOnChar '.' p
            if ids.all validPrereleaseIdent then some ⟨major, minor, patch, ids⟩
            else none
        | _, _, _ => none
      | _ => none
    else none

/-- SemVer 2.0.0 precedence on single prerelease identifiers: numeric
identifiers compare numerically and are lower than alphanumeric ones,
which compare lexicographically in ASCII order. -/
def identCompare (a b : String) : Ordering :=
  match parseNumericIdent a, parseNumericIdent b with
  | some x, some y => natCompare x y
  | some _, none => .lt
  | none, some _ => .gt
  | none, none => strCompare a b

/-- Identifier-list precedence: element-wise, a strict prefix is lower. -/
def preListCompare : List String → List String → Ordering
  | [], [] => .eq
  | [], _ :: _ => .lt
  | _ :: _, [] => .gt
  | x :: xs, y :: ys =>
    match identCompare x y with
    | .eq => preListCompare xs ys
    | o => o

/-- Prerelease-field precedence: a release (empty list) outranks any
prerelease; two prereleases compare by `preListCompare`. -/
def prereleaseCompare (a b : List String) : Ordering :=
  match a, b with
  | [], [] => .eq
  | [], _ :: _ => .gt
  | _ :: _, [] => .lt
  | _, _ => preListCompare a b

/-- SemVer 2.0.0 precedence; the model of `semver.compare`. -/
def semverCompare (a b : Semver) : Ordering :=
  ((natCompare a.major b.major).then
    ((natCompare a.minor b.minor).then
      ((natCompare a.patch b.patch).then
        (prereleaseCompare a.prerelease b.prerelease))))

/-! ## POSIX path fragments used by the sources

Only the fragments of Node's `path` module that the sources exercise are
embedded; the paths in scope contain no `.`/`..` segments. -/

/-- Node `path.basename` (POSIX): strip trailing slashes, then keep the part
after the last slash; a run of slashes only is `/`, the empty path is ``""``. -/
def basename (p : String) : String :=
  let cs := p.toList
  let rtrimmed := (cs.reverse.dropWhile (fun c => c = '/')).reverse
  if rtrimmed.isEmpty then (if cs.isEmpty then "" else "/")
  else String.mk (rtrimmed.reverse.takeWhile (fun c => ¬ c = '/')).reverse

/-- Node `path.join` on two segments (no `.`/`..` normalisation needed for
the names in scope). -/
def pathJoin (a b : String) : String :=
  if a = "" then b
  else if a.toList.getLast? = some '/' then a ++ b
  else a ++ "/" ++ b

/-- Remove the first occurrence of `pat` from a character list; the model of
JavaScript `String.prototype.replace(pat, '')` with a string pattern. -/
def removeFirstOcc (pat : List Char) : List Char → List Char
  | [] => []
  | c :: rest =>
    if pat.isPrefixOf (c :: rest) then (c :: rest).drop pat.length
    else c :: removeFirstOcc pat rest

/-- JavaScript `s.replace(pat, '')` (first occurrence only). -/
def replaceFirst (s pat : String) : String :=
  String.mk (removeFirstOcc pat.toList s.toList)

/-- Whether `s` starts with `pre` (the literal-prefix reading of the glob
`<pluginName>-v*` over slash-free entry names). -/
def strStartsWith (s pre : String) : Bool :=
  pre.toList.isPrefixOf s.toList

/-! ## The filesystem model

A node is a file or a directory; a directory's contents are a list of
named child nodes.  The base directory handled by the backup utilities is a
list of named entries (`FS`).  Files are characterised by the outcome of
`JSON.parse` on their contents, the only way the sources read a file. -/

/-- What `JSON.parse` yields on a file's bytes: a parse failure, or a JSON
object restricted to the two fields the sources consult (field values are
recorded as the strings they interpolate to; an absent field is `none`). -/
inductive FileData where
  | malformed
  | jsonObj (name : Option String) (version : Option String)
  deriving Repr

/-- A filesystem node. -/
inductive FNode where
  | file (data : FileData)
  | dir (entries : List (String × FNode))
  deriving Repr

/-- The entries of the base plugin directory. -/
abbrev FS := List (String × FNode)

/-- First entry with the given name (directory entry lookup / `fs.access`). -/
def lookupEntry : FS → String → Option FNode
  | [], _ => none
  | e :: es, n => if e.1 = n then some e.2 else lookupEntry es n

/-- Remove every entry with the given name (`fs.rm` with `recursive: true`
on an existing entry). -/
def removeEntry : FS → String → FS
  | [], _ => []
  | e :: es, n => if e.1 = n then removeEntry es n else e :: removeEntry es n

/-- Filesystem error codes surfaced by the operations in scope. -/
inductive FsError where
  | enoent
  | enotempty
  | enotdir
  | eisdir
  deriving Repr, DecidableEq

/-- Node `fs.rename` (POSIX `rename(2)`) restricted to sibling entries of the
base directory: the target may be replaced only if it is an empty directory
(for a directory source) or a file (for a file source); renaming a directory
onto a non-empty directory fails with `ENOTEMPTY`.  The renamed entry is
re-inserted at the end of the listing (entry order inside a directory carries
no meaning). -/
def rename (fs : FS) (oldName newName : String) : Except FsError FS :=
  match lookupEntry fs oldName with
  | none => .error .enoent
  | some node =>
    match lookupEntry fs newName with
    | none => .ok (removeEntry fs oldName ++ [(newName, node)])
    | some (.dir []) =>
      match node with
      | .dir _ => .ok (removeEntry (removeEntry fs oldName) newName ++ [(newName, node)])
      | .file _ => .error .eisdir
    | some (.dir (_ :: _)) =>
      match node with
      | .dir _ => .error .enotempty
      | .file _ => .error .eisdir
    | some (.file _) =>
      match node with
      | .dir _ => .error .enotdir
      | .file _ => .ok (removeEntry (removeEntry fs oldName) newName ++ [(newName, node)])

/-- Node `fs.rm(path, { recursive: true })`: fails with `ENOENT` when the
entry is absent (no `force` flag is passed in the sources). -/
def rmRec (fs : FS) (n : String) : Except FsError FS :=
  match lookupEntry fs n with
  | none => .error .enoent
  | some _ => .ok (removeEntry fs n)

/-- Errors of `readJson` (`JSON.parse(await fs.readFile(filepath))`,
`ContentPluginModule.readJson`): a missing file, a path through or onto a
directory, or malformed JSON. -/
inductive JsonErr where
  | enoent
  | eisdir
  | enotdir
  | syntaxError
  deriving Repr, DecidableEq

/-- The two metadata fields a parsed `package.json`/`bower.json` contributes. -/
structure Pkg where
  name : Option String
  version : Option String
  deriving Repr, DecidableEq

/-- The outcome of `readJson(path.join(nodePath, fileName))` for a node already at hand. -/
def readJsonNode : FNode → String → Except JsonErr Pkg
  | .file _, _ => .error .enotdir
  | .dir es, f =>
    match lookupEntry es f with
    | none => .error .enoent
    | some (.dir _) => .error .eisdir
    | some (.file .malformed) => .error .syntaxError
    | some (.file (.jsonObj nm vr)) => .ok ⟨nm, vr⟩

/-- The outcome of `readJson(path.join(pathJoin baseDir dirName, fileName))`. -/
def readJsonIn (fs : FS) (dirName fileName : String) : Except JsonErr Pkg :=
  match lookupEntry fs dirName with
  | none => .error .enoent
  | some node => readJsonNode node fileName

/-! ## BackupSelector — `getMostRecentBackup` (src/lib/utils/getMostRecentBackup.js) -/

/-- The matches of `glob('<pluginName>-v*', { cwd: pluginDir })`: the entry names of the
base directory that carry the literal prefix `<pluginName>-v` (`*` matches
any slash-free run, and entry names contain no slash). -/
def globVMatches (fs : FS) (pluginName : String) : List String :=
  (fs.map Prod.fst).filter (fun n => strStartsWith n (pluginName ++ "-v"))

/-- The version token of a candidate: the base name with the first occurrence
of `<pluginName>-v` replaced by the empty string
(`path.basename(a).replace(pluginName + '-v', '')`). -/
def versionTokenOf (pluginName a : String) : String :=
  replaceFirst (basename a) (pluginName ++ "-v")

/-- The sort callback of `getMostRecentBackup`: semver-precedence descending
when both tokens parse as semantic versions (`semver.rcompare`), otherwise
descending lexicographic comparison of the two full paths
(`b.localeCompare(a)`). -/
def backupComparator (pluginName : String) (a b : String) : Int :=
  let versionA := versionTokenOf pluginName a
  let versionB := versionTokenOf pluginName b
  match semverParse versionA, semverParse versionB with
  | some sa, some sb => ordToInt (semverCompare sb sa)
  | _, _ => ordToInt (strCompare b a)

/-- Stable insertion of one element under a JavaScript comparator (`x` goes
before the first element it compares strictly below, hence after elements
that tie with it). -/
def insertSorted (cmp : String → String → Int) (x : String) : List String → List String
  | [] => [x]
  | y :: ys => if cmp x y < 0 then x :: y :: ys else y :: insertSorted cmp x ys

/-- The model of `Array.prototype.sort` with a comparator (stable, as guaranteed since
ES2019), as a stable insertion sort over the listing order. -/
def jsSort (cmp : String → String → Int) (l : List String) : List String :=
  l.foldl (fun acc x => insertSorted cmp x acc) []

/-- The glob candidates as absolute paths (`absolute: true`), sorted by the
comparator; `getMostRecentBackup` returns its head. -/
def sortedBackups (fs : FS) (pluginDir pluginName : String) : List String :=
  jsSort (backupComparator pluginName)
    ((globVMatches fs pluginName).map (pathJoin pluginDir))

/-- The embedding of `getMostRecentBackup(pluginDir, pluginName)`: `null` when the glob has no
matches, otherwise the sorted list's first element (an absolute path). -/
def getMostRecentBackup (fs : FS) (pluginDir pluginName : String) : Option String :=
  (sortedBackups fs pluginDir pluginName).head?

/-- The backup candidates sorted at the level of entry names, with the
comparator still applied to the full absolute paths.  Used to perform the
renames of the other operations on directory entries;
`getMostRecentBackup` is exactly its head joined onto the base directory
(theorem `getMostRecentBackup_eq_names`). -/
def sortedBackupNames (fs : FS) (pluginDir pluginName : String) : List String :=
  jsSort (fun n m => backupComparator pluginName (pathJoin pluginDir n) (pathJoin pluginDir m))
    (globVMatches fs pluginName)

/-! ## BackupManager — `backupPluginVersion` (src/lib/utils/backupPluginVersion.js) -/

/-- JavaScript string interpolation of a possibly-undefined field:
`${undefined}` renders as `"undefined"`. -/
def jsToString (v : Option String) : String :=
  v.getD "undefined"

/-- The version token `backupPluginVersion` suffixes the backup with:
`package.json`'s `version` field if that file parses, else `bower.json`'s if
that one does, else the synthesized `unknown-<Date.now()>` token. -/
def backupToken (fs : FS) (dirName : String) (nowMs : Nat) : String :=
  match readJsonIn fs dirName "package.json" with
  | .ok pkg => jsToString pkg.version
  | .error _ =>
    match readJsonIn fs dirName "bower.json" with
    | .ok bower => jsToString bower.version
    | .error _ => "unknown-" ++ toString nowMs

/-- The embedding of `backupPluginVersion(pluginPath, pluginName)` with
`pluginPath = pathJoin baseDir dirName`: `null` (and no change) when the
canonical entry is absent, otherwise a rename of the canonical entry onto
`<pluginPath>-v<token>`.  The returned string is the absolute backup path. -/
def backupPluginVersion (fs : FS) (baseDir dirName : String) (nowMs : Nat) :
    Except FsError (FS × Option String) :=
  match lookupEntry fs dirName with
  | none => .ok (fs, none)
  | some _ =>
    let existingVersion := backupToken fs dirName nowMs
    match rename fs dirName (dirName ++ "-v" ++ existingVersion) with
    | .error e => .error e
    | .ok fs2 => .ok (fs2, some (pathJoin baseDir dirName ++ "-v" ++ existingVersion))

/-! ## BackupRetention — `cleanupOldPluginBackups`
(src/lib/utils/cleanupOldPluginBackups.js) -/

/-- Remove a list of entries in order, propagating the first failure
(the `for … await fs.rm(backup, { recursive: true })` loop). -/
def rmAll (fs : FS) (names : List String) : Except FsError FS :=
  match names with
  | [] => .ok fs
  | n :: rest =>
    match rmRec fs n with
    | .error e => .error e
    | .ok fs1 => rmAll fs1 rest

/-- The embedding of `cleanupOldPluginBackups(pluginDir, pluginName)`: no-op when at most one
glob match exists; otherwise deletes every match whose absolute path differs
from `getMostRecentBackup`'s result. -/
def cleanupOldPluginBackups (fs : FS) (pluginDir pluginName : String) :
    Except FsError FS :=
  let backups := globVMatches fs pluginName
  if backups.length ≤ 1 then .ok fs
  else
    match getMostRecentBackup fs pluginDir pluginName with
    | none => .ok fs
    | some mostRecent =>
        rmAll fs (backups.filter (fun n => ¬ pathJoin pluginDir n = mostRecent))

/-! ## RestoreManager — `restorePluginFromBackup` (src/unnamed/part_000) -/

/-- Errors `restorePluginFromBackup` can surface: a propagated filesystem
error, or the final `Could not read package.json or bower.json from backup`
error. -/
inductive RestoreErr where
  | fsError (e : FsError)
  | metadataMissing
  deriving Repr, DecidableEq

/-- The `try fs.access; fs.rm` block of `restorePluginFromBackup`: remove the
current canonical entry if it exists, tolerating its absence. -/
def removeCurrentIfExists (fs : FS) (pluginName : String) : FS :=
  match lookupEntry fs pluginName with
  | some _ => removeEntry fs pluginName
  | none => fs

/-- The embedding of `restorePluginFromBackup(pluginDir, pluginName)`.  Returns the state of
the base directory together with the outcome, so partially applied mutations
are visible on the error path.  The selected backup's absolute path is
`pathJoin pluginDir backupName`; the rename is performed on the entry name. -/
def restorePluginFromBackup (fs : FS) (pluginDir pluginName : String) :
    FS × Except RestoreErr (Option Pkg) :=
  match (sortedBackupNames fs pluginDir pluginName).head? with
  | none => (fs, .ok none)
  | some backupName =>
    let fs1 := removeCurrentIfExists fs pluginName
    match rename fs1 backupName pluginName with
    | .error e => (fs1, .error (.fsError e))
    | .ok fs2 =>
      match readJsonIn fs2 pluginName "package.json" with
      | .ok pkg => (fs2, .ok (some pkg))
      | .error _ =>
        match readJsonIn fs2 pluginName "bower.json" with
        | .ok pkg => (fs2, .ok (some pkg))
        | .error _ => (fs2, .error .metadataMissing)

/-! ## InstallStager — `processPluginFiles` (src/lib/utils/processPluginFiles.js)

`processPluginFiles` touches two locations: the supplied `sourcePath`
(anywhere on disk) and the persistent base directory `pluginDir`.  A `World`
carries the node currently at `sourcePath` (or `none` when that path does not
exist) together with the base directory's entries. -/

/-- The filesystem as seen by `processPluginFiles`. -/
structure World where
  plugins : FS
  src : Option FNode

/-- Errors surfaced by `processPluginFiles`: a propagated filesystem error
(e.g. from `fs.readdir` on a missing source) or the
`Invalid plugin zip: …` error, carrying its exact message. -/
inductive StageErr where
  | fsError (e : FsError)
  | invalidZip (msg : String)
  deriving Repr, DecidableEq

/-- The object `processPluginFiles` resolves with: either the parsed
metadata annotated with `sourcePath`/`isLocalInstall`, or the non-local
passthrough `{name, version, isLocalInstall: false}` (which has no
`sourcePath` field). -/
structure StageResult where
  name : Option String
  version : Option String
  sourcePath : Option String
  isLocalInstall : Bool
  deriving Repr, DecidableEq

/-- The source path after the single-nested-root descent: when the source
directory holds exactly one entry the variable `sourcePath` is reassigned to
`path.join(pluginData.sourcePath, contents[0])`, otherwise it is unchanged. -/
def resolvedSourcePath (src : Option FNode) (sourcePath : String) : String :=
  match src with
  | some (.dir [e]) => pathJoin sourcePath e.1
  | _ => sourcePath

/-- The node the metadata is read from after the descent. -/
def resolvedSourceNode (src : Option FNode) : Option FNode :=
  match src with
  | some (.dir [e]) => some e.2
  | other => other

/-- The tail of `processPluginFiles` once metadata was read: annotate the
package, back up any existing canonical install, prune old backups, copy the
resolved source to the canonical entry and delete the source. -/
def stageLocal (w : World) (pluginDir : String) (nowMs : Nat)
    (resolvedNode : FNode) (srcAfterRm : Option FNode) (pkg : Pkg)
    (pname : String) : World × Except StageErr StageResult :=
  match backupPluginVersion w.plugins pluginDir pname nowMs with
  | .error e => (w, .error (.fsError e))
  | .ok (fs1, _) =>
    match cleanupOldPluginBackups fs1 pluginDir pname with
    | .error e => ({ plugins := fs1, src := w.src }, .error (.fsError e))
    | .ok fs2 =>
      -- `fs.cp(sourcePath, pkg.sourcePath, { recursive: true })`: the
      -- canonical entry is vacant here (it was just renamed away, or never
      -- existed), so the copy creates it; then `fs.rm(sourcePath)`.
      ({ plugins := removeEntry fs2 pname ++ [(pname, resolvedNode)], src := srcAfterRm },
        .ok ⟨pkg.name, pkg.version, some (pathJoin pluginDir pname), true⟩)

/-- The embedding of `processPluginFiles(pluginData, pluginDir)` with
`pluginData = { name: pdName, sourcePath }`.  A bare `sourcePath` (equal to
its own basename) is the non-local passthrough; otherwise the source is
listed, a single nested root is descended into once, metadata is read
(`package.json`, then `bower.json`), and failure of that block — including
`path.join(pluginDir, pkg.name)` throwing when the parsed object has no
`name` — raises `Invalid plugin zip: no package.json or bower.json found in
<sourcePath>` with the reassigned `sourcePath` variable. -/
def processPluginFiles (w : World) (pdName sourcePath pluginDir : String)
    (nowMs : Nat) : World × Except StageErr StageResult :=
  if sourcePath = basename sourcePath then
    (w, .ok ⟨some pdName, some sourcePath, none, false⟩)
  else
    match w.src with
    | none => (w, .error (.fsError .enoent))          -- fs.readdir: ENOENT
    | some (.file _) => (w, .error (.fsError .enotdir)) -- fs.readdir: ENOTDIR
    | some (.dir entries) =>
      let resolvedPath := resolvedSourcePath w.src sourcePath
      let resolvedNode := (resolvedSourceNode w.src).getD (.dir entries)
      let pkgE : Except JsonErr Pkg :=
        match readJsonNode resolvedNode "package.json" with
        | .ok o => .ok o
        | .error _ => readJsonNode resolvedNode "bower.json"
      match pkgE with
      | .error _ =>
        (w, .error (.invalidZip
          ("Invalid plugin zip: no package.json or bower.json found in " ++ resolvedPath)))
      | .ok pkg =>
        match pkg.name with
        | none =>
          -- path.join(pluginDir, undefined) throws; the same catch block
          -- converts it into the same Invalid-plugin-zip error
          (w, .error (.invalidZip
            ("Invalid plugin zip: no package.json or bower.json found in " ++ resolvedPath)))
        | some pname =>
          let srcAfterRm : Option FNode :=
            match entries with
            | [_] => some (.dir [])  -- rm removed the nested root only
            | _ => none              -- rm removed the source directory
          stageLocal w pluginDir nowMs resolvedNode srcAfterRm pkg pname

/-! ## Concrete inputs used by the closed theorems below -/

/-- Three semver-named backups (§8 selector-ordering test, first case). -/
def fsSemverBackups : FS :=
  [("adapt-hotgrid-v1.0.0", .dir []), ("adapt-hotgrid-v2.3.1", .dir []),
   ("adapt-hotgrid-v1.9.9", .dir [])]

/-- Two fallback-token backups (§8 selector-ordering test, second case). -/
def fsUnknownBackups : FS :=
  [("adapt-hotgrid-vunknown-100", .dir []), ("adapt-hotgrid-vunknown-200", .dir [])]

/-- A canonical install of `adapt-hotgrid@4.3.5` next to a stale non-empty
directory already occupying the computed backup path (the regression-test
scenario of `backupPluginVersion`). -/
def fsStaleBackup : FS :=
  [("adapt-hotgrid", .dir [("package.json", .file (.jsonObj (some "adapt-hotgrid") (some "4.3.5")))]),
   ("adapt-hotgrid-v4.3.5", .dir [("stale-file.txt", .file .malformed)])]

/-- Same scenario for a different plugin (used by the C6 counterexample). -/
def fsStaleBackupText : FS :=
  [("adapt-text", .dir [("package.json", .file (.jsonObj (some "adapt-text") (some "1.0.0")))]),
   ("adapt-text-v1.0.0", .dir [("old.txt", .file .malformed)])]

/-- A base directory holding only the canonical install of a plugin that
happens to be named `adapt-vanilla` — whose name starts with `adapt-v`. -/
def fsVanillaOnly : FS :=
  [("adapt-vanilla", .dir [("package.json", .file (.jsonObj (some "adapt-vanilla") (some "2.1.0")))])]

/-- One backup of plugin `p` whose contents contain no metadata file. -/
def fsBadBackup : FS :=
  [("p-v1.0.0", .dir [("readme.txt", .file .malformed)])]

/-- The base directory state `restorePluginFromBackup` leaves behind on
`fsBadBackup` (where it fails after mutating). -/
def restoredC9 : FS :=
  (restorePluginFromBackup fsBadBackup "/plugins" "p").1

/-- A canonical `p` install whose `package.json` parses but has no `version`
field, while a readable `bower.json` carries one. -/
def fsNoVersionField : FS :=
  [("p", .dir [("package.json", .file (.jsonObj (some "p") none)),
               ("bower.json", .file (.jsonObj (some "p") (some "9.9.9")))])]

/-- A canonical `p` install with a plain `package.json` (used by the C6
witness). -/
def fsPlainInstall : FS :=
  [("p", .dir [("package.json", .file (.jsonObj (some "p") (some "1.0.0")))])]

/-- Three semver backups of `adapt-hotgrid` (C3 witness input). -/
def fsThreeBackups : FS :=
  [("adapt-hotgrid-v1.0.0", .dir []), ("adapt-hotgrid-v2.0.0", .dir []),
   ("adapt-hotgrid-v3.0.0", .dir [])]

/-- A source directory holding exactly one nested root folder without any
metadata file (C8 counterexample input). -/
def wNestedNoMeta : World :=
  { plugins := [], src := some (.dir [("nested", .dir [("readme.txt", .file .malformed)])]) }

/-! ## Lemmas about the orderings -/

theorem natCompare_swap (a b : Nat) : natCompare b a = (natCompare a b).swap := by
  unfold natCompare
  rcases Nat.lt_trichotomy a b with h | h | h
  · simp [h, Nat.not_lt.2 (Nat.le_of_lt h), Ordering.swap]
  · simp [h, Nat.lt_irrefl, Ordering.swap]
  · simp [h, Nat.not_lt.2 (Nat.le_of_lt h), Ordering.swap]

theorem charCompare_swap (a b : Char) : charCompare b a = (charCompare a b).swap :=
  natCompare_swap _ _

theorem listCompare_swap (a b : List Char) :
    listCompare b a = (listCompare a b).swap := by
  induction a generalizing b with
  | nil => cases b <;> rfl
  | cons x xs ih =>
    cases b with
    | nil => rfl
    | cons y ys =>
      unfold listCompare
      rw [charCompare_swap x y]
      cases charCompare x y with
      | lt => rfl
      | gt => rfl
      | eq => exact ih ys

/-- The operator `Ordering.then` distributes over `swap`. -/
theorem then_swap (a b : Ordering) : (a.then b).swap = a.swap.then b.swap := by
  cases a <;> rfl

theorem identCompare_swap (a b : String) :
    identCompare b a = (identCompare a b).swap := by
  unfold identCompare
  cases parseNumericIdent a <;> cases parseNumericIdent b
  · exact listCompare_swap _ _
  · rfl
  · rfl
  · exact natCompare_swap _ _

theorem preListCompare_swap (a b : List String) :
    preListCompare b a = (preListCompare a b).swap := by
  induction a generalizing b with
  | nil => cases b <;> rfl
  | cons x xs ih =>
    cases b with
    | nil => rfl
    | cons y ys =>
      unfold preListCompare
      rw [identCompare_swap x y]
      cases identCompare x y with
      | lt => rfl
      | gt => rfl
      | eq => exact ih ys

theorem prereleaseCompare_swap (a b : List String) :
    prereleaseCompare b a = (prereleaseCompare a b).swap := by
  cases a with
  | nil => cases b <;> rfl
  | cons x xs =>
    cases b with
    | nil => rfl
    | cons y ys => exact preListCompare_swap (x :: xs) (y :: ys)

theorem semverCompare_swap (a b : Semver) :
    semverCompare b a = (semverCompare a b).swap := by
  unfold semverCompare
  rw [natCompare_swap a.major, natCompare_swap a.minor, natCompare_swap a.patch,
    prereleaseCompare_swap a.prerelease, ← then_swap, ← then_swap, ← then_swap]

/-! ## Lemmas about paths -/

theorem removeFirstOcc_drop (pat cs : List Char) (h : pat.isPrefixOf cs) :
    removeFirstOcc pat cs = cs.drop pat.length := by
  cases cs with
  | nil =>
    have : pat = [] := by
      cases pat with
      | nil => rfl
      | cons p ps => simp [List.isPrefixOf] at h
    simp [removeFirstOcc, this]
  | cons c rest => simp [removeFirstOcc, h]

/-- Joining is injective in the second argument (used to translate the
source's comparisons of absolute backup paths into comparisons of entry
names). -/
theorem pathJoin_right_injective (d : String) {x y : String}
    (h : pathJoin d x = pathJoin d y) : x = y := by
  unfold pathJoin at h
  split at h
  · exact h
  · split at h
    · have := congrArg String.data h
      simp only [String.data_append] at this
      exact String.ext (List.append_cancel_left this)
    · have := congrArg String.data h
      simp only [String.data_append, List.append_assoc] at this
      exact String.ext (List.append_cancel_left (List.append_cancel_left this))

/-! ## Lemmas about the embedded operations -/

theorem mem_insertSorted {cmp : String → String → Int} {x y : String}
    {l : List String} : y ∈ insertSorted cmp x l ↔ y = x ∨ y ∈ l := by
  induction l with
  | nil => simp [insertSorted]
  | cons z zs ih =>
    unfold insertSorted
    split
    · simp
    · simp only [List.mem_cons, ih]
      tauto

theorem length_insertSorted (cmp : String → String → Int) (x : String)
    (l : List String) : (insertSorted cmp x l).length = l.length + 1 := by
  induction l with
  | nil => rfl
  | cons z zs ih =>
    unfold insertSorted
    split
    · simp
    · simp [ih]

theorem mem_foldl_insertSorted {cmp : String → String → Int} {y : String}
    (l acc : List String) :
    y ∈ l.foldl (fun acc x => insertSorted cmp x acc) acc ↔ y ∈ acc ∨ y ∈ l := by
  induction l generalizing acc with
  | nil => simp
  | cons z zs ih =>
    simp only [List.foldl_cons, ih, mem_insertSorted, List.mem_cons]
    tauto

theorem mem_jsSort {cmp : String → String → Int} {y : String} {l : List String} :
    y ∈ jsSort cmp l ↔ y ∈ l := by
  unfold jsSort
  rw [mem_foldl_insertSorted]
  simp

theorem length_foldl_insertSorted (cmp : String → String → Int)
    (l acc : List String) :
    (l.foldl (fun acc x => insertSorted cmp x acc) acc).length
      = acc.length + l.length := by
  induction l generalizing acc with
  | nil => rfl
  | cons z zs ih => simp [ih, length_insertSorted]; omega

theorem length_jsSort (cmp : String → String → Int) (l : List String) :
    (jsSort cmp l).length = l.length := by
  unfold jsSort
  rw [length_foldl_insertSorted]
  simp

theorem insertSorted_map (f : String → String) (cmp : String → String → Int)
    (x : String) (l : List String) :
    insertSorted cmp (f x) (l.map f)
      = (insertSorted (fun a b => cmp (f a) (f b)) x l).map f := by
  induction l with
  | nil => rfl
  | cons z zs ih =>
    simp only [List.map_cons, insertSorted]
    by_cases h : cmp (f x) (f z) < 0
    · simp [h]
    · simp [h, ih]

theorem jsSort_map (f : String → String) (cmp : String → String → Int)
    (l : List String) :
    jsSort cmp (l.map f) = (jsSort (fun a b => cmp (f a) (f b)) l).map f := by
  unfold jsSort
  suffices h : ∀ acc : List String,
      (l.map f).foldl (fun acc x => insertSorted cmp x acc) (acc.map f)
        = (l.foldl (fun acc x => insertSorted (fun a b => cmp (f a) (f b)) x acc) acc).map f by
    simpa using h []
  induction l with
  | nil => intro acc; rfl
  | cons z zs ih =>
    intro acc
    simp only [List.map_cons, List.foldl_cons, insertSorted_map, ih]

/-- The selector `getMostRecentBackup` is the head of the name-level sorted list joined
onto the base directory. -/
theorem getMostRecentBackup_eq_names (fs : FS) (d p : String) :
    getMostRecentBackup fs d p
      = (sortedBackupNames fs d p).head?.map (pathJoin d) := by
  unfold getMostRecentBackup sortedBackups sortedBackupNames
  rw [jsSort_map]
  cases jsSort (fun n m => backupComparator p (pathJoin d n) (pathJoin d m))
      (globVMatches fs p) <;> rfl

theorem lookupEntry_removeEntry_self (fs : FS) (n : String) :
    lookupEntry (removeEntry fs n) n = none := by
  induction fs with
  | nil => rfl
  | cons e es ih =>
    unfold removeEntry
    split
    · exact ih
    · simp [lookupEntry, *]

theorem lookupEntry_removeEntry_ne (fs : FS) {n m : String} (h : ¬ m = n) :
    lookupEntry (removeEntry fs n) m = lookupEntry fs m := by
  have hnm : ¬ n = m := fun hh => h hh.symm
  induction fs with
  | nil => rfl
  | cons e es ih =>
    by_cases he : e.1 = n
    · have hem : ¬ e.1 = m := by rw [he]; exact fun hh => h hh.symm
      simp [removeEntry, lookupEntry, he, hem, hnm, ih]
    · by_cases hem : e.1 = m
      · simp [removeEntry, lookupEntry, he, hem, h, hnm]
      · simp [removeEntry, lookupEntry, he, hem, hnm, ih]

theorem lookupEntry_append_of_none {fs : FS} {n : String}
    (h : lookupEntry fs n = none) (l : FS) :
    lookupEntry (fs ++ l) n = lookupEntry l n := by
  induction fs with
  | nil => rfl
  | cons e es ih =>
    have hne : ¬ e.1 = n := by
      intro hh
      simp [lookupEntry, hh] at h
    have h' : lookupEntry es n = none := by
      simpa [lookupEntry, hne] using h
    simpa [lookupEntry, hne, List.cons_append] using ih h'

theorem lookupEntry_isSome_iff {fs : FS} {n : String} :
    (lookupEntry fs n).isSome ↔ n ∈ fs.map Prod.fst := by
  induction fs with
  | nil => simp [lookupEntry]
  | cons e es ih =>
    by_cases he : e.1 = n
    · simp [lookupEntry, he]
    · have hne : ¬ n = e.1 := fun hh => he hh.symm
      simp [lookupEntry, he, hne, ih]

theorem keys_removeEntry (fs : FS) (n : String) :
    (removeEntry fs n).map Prod.fst
      = (fs.map Prod.fst).filter (fun m => ¬ m = n) := by
  induction fs with
  | nil => rfl
  | cons e es ih =>
    by_cases he : e.1 = n
    · simp [removeEntry, he, List.filter, ih]
    · simp [removeEntry, he, List.filter, ih]

theorem globVMatches_removeEntry (fs : FS) (n p : String) :
    globVMatches (removeEntry fs n) p
      = (globVMatches fs p).filter (fun m => ¬ m = n) := by
  unfold globVMatches
  rw [keys_removeEntry, List.filter_filter, List.filter_filter]
  exact List.filter_congr (fun x _ => by by_cases hx : x = n <;> simp [hx])

theorem globVMatches_foldl_removeEntry (names : List String) (fs : FS)
    (p : String) :
    globVMatches (names.foldl removeEntry fs) p
      = (globVMatches fs p).filter (fun m => ¬ m ∈ names) := by
  induction names generalizing fs with
  | nil => simp
  | cons n rest ih =>
    rw [List.foldl_cons, ih, globVMatches_removeEntry, List.filter_filter]
    exact List.filter_congr (fun x _ => by
      by_cases h1 : x = n <;> by_cases h2 : x ∈ rest <;> simp [h1, h2])

theorem rmAll_ok (names : List String) (fs : FS) (hnd : names.Nodup)
    (hmem : ∀ n ∈ names, (lookupEntry fs n).isSome) :
    rmAll fs names = .ok (names.foldl removeEntry fs) := by
  induction names generalizing fs with
  | nil => rfl
  | cons n rest ih =>
    have hn : (lookupEntry fs n).isSome := hmem n (by simp)
    obtain ⟨node, hnode⟩ := Option.isSome_iff_exists.mp hn
    have hrest : ∀ m ∈ rest, (lookupEntry (removeEntry fs n) m).isSome := by
      intro m hm
      have hmn : ¬ m = n := by
        rintro rfl
        exact (List.nodup_cons.mp hnd).1 hm
      rw [lookupEntry_removeEntry_ne fs hmn]
      exact hmem m (by simp [hm])
    simp only [rmAll, rmRec, hnode, List.foldl_cons]
    exact ih (removeEntry fs n) (List.nodup_cons.mp hnd).2 hrest

/-- In a duplicate-free list, filtering for a member yields that member
alone. -/
theorem filter_eq_singleton_of_nodup {l : List String} {a : String}
    (hnd : l.Nodup) (ha : a ∈ l) : l.filter (fun x => x = a) = [a] := by
  induction l with
  | nil => cases ha
  | cons x xs ih =>
    rcases List.mem_cons.mp ha with rfl | hxs
    · have : xs.filter (fun y => y = a) = [] :=
        List.filter_eq_nil_iff.mpr (fun y hy => by
          simp only [decide_eq_true_eq]
          rintro rfl
          exact (List.nodup_cons.mp hnd).1 hy)
      simp [List.filter, this]
    · have hxa : ¬ x = a := by
        rintro rfl
        exact (List.nodup_cons.mp hnd).1 hxs
      simp [List.filter, hxa, ih (List.nodup_cons.mp hnd).2 hxs]

/-- The glob match list of a duplicate-free base directory is itself
duplicate-free. -/
theorem globVMatches_nodup {fs : FS} (hnd : (fs.map Prod.fst).Nodup)
    (p : String) : (globVMatches fs p).Nodup :=
  hnd.filter _

/-- A name carrying the `<pluginName>-v` prefix is longer than the plugin
name, hence distinct from it (a backup entry never shadows the canonical
entry). -/
theorem ne_of_strStartsWith_v {p m : String}
    (h : strStartsWith m (p ++ "-v") = true) : ¬ m = p := by
  intro heq
  rw [heq] at h
  have hpre : (p ++ "-v").toList <+: p.toList :=
    List.isPrefixOf_iff_prefix.mp h
  have hlen := hpre.length_le
  have h2 : (p ++ "-v").toList.length = p.toList.length + 2 := by
    simp only [String.toList, String.data_append, List.length_append]
    rfl
  omega

/-- Membership in the glob list unpacked. -/
theorem mem_globVMatches_iff {fs : FS} {p n : String} :
    n ∈ globVMatches fs p
      ↔ n ∈ fs.map Prod.fst ∧ strStartsWith n (p ++ "-v") = true := by
  simp [globVMatches, List.mem_filter]

/-- When the canonical entry exists and nothing occupies the computed backup
path, `backupPluginVersion` succeeds, moving the canonical entry to the
backup name and returning the absolute backup path. -/
theorem backupPluginVersion_success (fs : FS) (d n : String) (now : Nat)
    {node : FNode} (hex : lookupEntry fs n = some node)
    (htv : lookupEntry fs (n ++ "-v" ++ backupToken fs n now) = none) :
    backupPluginVersion fs d n now
      = .ok (removeEntry fs n ++ [(n ++ "-v" ++ backupToken fs n now, node)],
          some (pathJoin d n ++ "-v" ++ backupToken fs n now)) := by
  simp [backupPluginVersion, rename, hex, htv]

theorem string_append_vundefined (a : String) :
    a ++ "-v" ++ "undefined" = a ++ "-vundefined" := by
  apply String.ext
  simp only [String.data_append, List.append_assoc]
  rfl

/-- The tail `stageLocal` (the post-metadata part of `processPluginFiles`) never
raises the Invalid-plugin-zip error: that error is minted only in the
metadata `catch` block. -/
theorem stageLocal_no_invalidZip (w : World) (pluginDir : String) (nowMs : Nat)
    (rn : FNode) (srcA : Option FNode) (pkg : Pkg) (pname : String)
    (w' : World) (msg : String) :
    ¬ stageLocal w pluginDir nowMs rn srcA pkg pname
      = (w', .error (.invalidZip msg)) := by
  intro hc
  unfold stageLocal at hc
  split at hc
  · simp [Prod.ext_iff] at hc
  · split at hc
    · simp [Prod.ext_iff] at hc
    · simp [Prod.ext_iff] at hc

/-! ## The claims -/

/-- C1: in `getMostRecentBackup`'s comparator, two entries whose version
tokens (base name with the `<pluginName>-v` prefix stripped) both parse as
semantic versions are ordered with the higher semver precedence first
(`semver.rcompare`); any pair with a non-semver token is ordered by
descending lexicographic comparison of the two full paths, with no partial
semver comparison.  On backups `v1.0.0`, `v2.3.1`, `v1.9.9` the selector
returns `v2.3.1`; on `unknown-100`, `unknown-200` it returns `unknown-200`. -/
theorem claim_C1_comparator_and_selector :
    (∀ (p a b : String) (sa sb : Semver),
        semverParse (versionTokenOf p a) = some sa →
        semverParse (versionTokenOf p b) = some sb →
        backupComparator p a b = ordToInt (semverCompare sb sa) ∧
        (backupComparator p a b < 0 ↔ semverCompare sa sb = .gt)) ∧
    (∀ (p a b : String),
        semverParse (versionTokenOf p a) = none ∨
          semverParse (versionTokenOf p b) = none →
        backupComparator p a b = ordToInt (strCompare b a)) ∧
    getMostRecentBackup fsSemverBackups "/plugins" "adapt-hotgrid"
      = some "/plugins/adapt-hotgrid-v2.3.1" ∧
    getMostRecentBackup fsUnknownBackups "/plugins" "adapt-hotgrid"
      = some "/plugins/adapt-hotgrid-vunknown-200" := by
  refine ⟨?_, ?_, by decide, by decide⟩
  · intro p a b sa sb ha hb
    have hcomp : backupComparator p a b = ordToInt (semverCompare sb sa) := by
      simp [backupComparator, ha, hb]
    refine ⟨hcomp, ?_⟩
    rw [hcomp, semverCompare_swap sa sb]
    cases semverCompare sa sb <;> decide
  · intro p a b h
    rcases h with h | h
    · cases hb : semverParse (versionTokenOf p b) <;>
        simp [backupComparator, h, hb]
    · cases ha : semverParse (versionTokenOf p a) <;>
        simp [backupComparator, h, ha]

theorem claim_C1_witness :
    backupComparator "adapt-hotgrid" "/plugins/adapt-hotgrid-v2.3.1"
        "/plugins/adapt-hotgrid-v1.9.9"
      = ordToInt (semverCompare ⟨1, 9, 9, []⟩ ⟨2, 3, 1, []⟩) ∧
    backupComparator "adapt-hotgrid" "/plugins/adapt-hotgrid-vunknown-100"
        "/plugins/adapt-hotgrid-vunknown-200"
      = ordToInt (strCompare "/plugins/adapt-hotgrid-vunknown-200"
          "/plugins/adapt-hotgrid-vunknown-100") :=
  ⟨(claim_C1_comparator_and_selector.1 "adapt-hotgrid"
      "/plugins/adapt-hotgrid-v2.3.1" "/plugins/adapt-hotgrid-v1.9.9"
      ⟨2, 3, 1, []⟩ ⟨1, 9, 9, []⟩ (by decide) (by decide)).1,
    claim_C1_comparator_and_selector.2.1 "adapt-hotgrid"
      "/plugins/adapt-hotgrid-vunknown-100" "/plugins/adapt-hotgrid-vunknown-200"
      (Or.inl (by decide))⟩

/-- C2: evaluating `backupPluginVersion` at a canonical `adapt-hotgrid@4.3.5`
install with a stale non-empty directory already occupying the computed
backup path `adapt-hotgrid-v4.3.5`: the code performs no removal of the
stale directory and the rename rejects with `ENOTEMPTY`, contradicting the
function's own doc comment ("removes any stale backup at the target path,
then renames") and its regression test, which assert the call succeeds. -/
theorem claim_C2_stale_backup_eval :
    backupPluginVersion fsStaleBackup "/plugins" "adapt-hotgrid" 0
      = .error .enotempty := rfl

/-- C4: a `sourceLocator` with no directory component (equal to its own
basename) makes `processPluginFiles` a pure passthrough: the filesystem is
untouched and the result is exactly
`{name: pluginName, version: sourceLocator, isLocalInstall: false}`. -/
theorem claim_C4_passthrough (w : World) (pdName sourcePath pluginDir : String)
    (nowMs : Nat) (h : sourcePath = basename sourcePath) :
    processPluginFiles w pdName sourcePath pluginDir nowMs
      = (w, .ok ⟨some pdName, some sourcePath, none, false⟩) := by
  unfold processPluginFiles
  rw [if_pos h]

theorem claim_C4_witness :
    processPluginFiles ⟨[], none⟩ "adapt-hotgrid" "4.3.5" "/plugins" 0
      = (⟨[], none⟩, .ok ⟨some "adapt-hotgrid", some "4.3.5", none, false⟩) :=
  claim_C4_passthrough ⟨[], none⟩ "adapt-hotgrid" "4.3.5" "/plugins" 0 (by decide)

/-- C5: with zero matching backup directories, `restorePluginFromBackup`
returns `null` and the base directory — including any existing canonical
directory — is left exactly as it was. -/
theorem claim_C5_restore_none (fs : FS) (d p : String)
    (h : globVMatches fs p = []) :
    restorePluginFromBackup fs d p = (fs, .ok none) := by
  unfold restorePluginFromBackup sortedBackupNames
  rw [h]
  rfl

theorem claim_C5_witness :
    restorePluginFromBackup fsPlainInstall "/plugins" "p"
      = (fsPlainInstall, .ok none) :=
  claim_C5_restore_none fsPlainInstall "/plugins" "p" (by decide)

/-- C6: evaluating `backupPluginVersion` at a canonical `adapt-text@1.0.0`
install whose computed backup path `adapt-text-v1.0.0` is already occupied
by a non-empty stale directory: the canonical path exists, yet the
operation does not succeed — it rejects with `ENOTEMPTY` instead of
returning the backup path, against the function's own doc comment and
regression test (the metadata-fallback portion of the claim is exercised
nowhere here: the failure happens at the rename, after the token was
computed from `package.json`). -/
theorem claim_C6_canonical_exists_but_fails :
    (lookupEntry fsStaleBackupText "adapt-text").isSome = true ∧
    backupPluginVersion fsStaleBackupText "/plugins" "adapt-text" 0
      = .error .enotempty :=
  ⟨rfl, rfl⟩

/-- C7 (amended): the candidate set of `getMostRecentBackup` and
`cleanupOldPluginBackups` is exactly the entries whose base name carries the
literal prefix `<pluginName>-v`, so an entry without that prefix is never
selected or deleted; but a directory of a *different* plugin whose name
itself starts with `<pluginName>-v` (e.g. plugin `adapt-vanilla` against
plugin name `adapt`) does fall into the set. -/
theorem claim_C7_glob_literal (fs : FS) (p n : String) :
    (n ∈ globVMatches fs p
      ↔ n ∈ fs.map Prod.fst ∧ strStartsWith n (p ++ "-v") = true) ∧
    (∀ m ∈ globVMatches fs p, strStartsWith m (p ++ "-v") = true) := by
  constructor
  · simp [globVMatches, List.mem_filter]
  · intro m hm
    exact (mem_globVMatches_iff.mp hm).2

theorem claim_C7_witness :
    "adapt-hotgrid-v1.0.0" ∈ globVMatches fsSemverBackups "adapt-hotgrid" :=
  (claim_C7_glob_literal fsSemverBackups "adapt-hotgrid"
    "adapt-hotgrid-v1.0.0").1.mpr ⟨by decide, by decide⟩

theorem claim_C7_counterexample :
    getMostRecentBackup fsVanillaOnly "/plugins" "adapt"
      = some "/plugins/adapt-vanilla" ∧
    ¬ "adapt-vanilla" = "adapt" :=
  ⟨rfl, by decide⟩

/-- C10: when `package.json` parses as JSON but carries no `version` field,
`backupPluginVersion` interpolates the JavaScript `undefined` value into the
token — the backup is named `<canonicalPath>-vundefined` — and neither
`bower.json` nor the `unknown-<timestamp>` fallback is consulted, whatever
they contain (the fallback chain only fires when reading or parsing
throws). -/
theorem claim_C10_undefined_token (fs : FS) (d n : String) (now : Nat)
    (o : Pkg) (hpkg : readJsonIn fs n "package.json" = .ok o)
    (hver : o.version = none) :
    backupToken fs n now = "undefined" ∧
    (∀ node, lookupEntry fs n = some node →
      lookupEntry fs (n ++ "-vundefined") = none →
      backupPluginVersion fs d n now
        = .ok (removeEntry fs n ++ [(n ++ "-vundefined", node)],
            some (pathJoin d n ++ "-vundefined"))) := by
  have htok : backupToken fs n now = "undefined" := by
    simp [backupToken, hpkg, jsToString, hver]
  refine ⟨htok, ?_⟩
  intro node hex htv
  have := backupPluginVersion_success fs d n now hex
    (by rw [htok, string_append_vundefined]; exact htv)
  rw [htok, string_append_vundefined n, string_append_vundefined (pathJoin d n)] at this
  exact this

theorem claim_C10_witness :
    backupToken fsNoVersionField "p" 7 = "undefined" ∧
    backupPluginVersion fsNoVersionField "/plugins" "p" 7
      = .ok (removeEntry fsNoVersionField "p"
            ++ [("p-vundefined",
                FNode.dir [("package.json", .file (.jsonObj (some "p") none)),
                  ("bower.json", .file (.jsonObj (some "p") (some "9.9.9")))])],
          some "/plugins/p-vundefined") :=
  have h := claim_C10_undefined_token fsNoVersionField "/plugins" "p" 7
    ⟨some "p", none⟩ rfl rfl
  ⟨h.1, h.2 _ rfl rfl⟩

/-- C3: when `cleanupOldPluginBackups` returns successfully over a base
directory with duplicate-free entry names, (a) it deleted nothing if at most
one backup matched, and (b) if any backup matched, exactly one matching
entry remains afterwards — the one `getMostRecentBackup` selects. -/
theorem claim_C3_prune_keeps_most_recent (fs : FS) (d p : String)
    (hnd : (fs.map Prod.fst).Nodup) (fs' : FS)
    (h : cleanupOldPluginBackups fs d p = .ok fs') :
    ((globVMatches fs p).length ≤ 1 → fs' = fs) ∧
    (globVMatches fs p ≠ [] → ∃ m,
      getMostRecentBackup fs d p = some (pathJoin d m) ∧
      globVMatches fs' p = [m]) := by
  unfold cleanupOldPluginBackups at h
  by_cases hlen : (globVMatches fs p).length ≤ 1
  · rw [if_pos hlen] at h
    have hfs : fs = fs' := by injection h
    subst hfs
    refine ⟨fun _ => rfl, ?_⟩
    intro hne
    obtain ⟨m, hm⟩ : ∃ m, globVMatches fs p = [m] := by
      cases hg : globVMatches fs p with
      | nil => exact absurd hg hne
      | cons x xs =>
        cases xs with
        | nil => exact ⟨x, rfl⟩
        | cons y ys => rw [hg] at hlen; simp at hlen
    refine ⟨m, ?_, hm⟩
    unfold getMostRecentBackup sortedBackups
    rw [hm]
    rfl
  · rw [if_neg hlen] at h
    -- the sorted candidate list is nonempty, so the selector returns its head
    have hnon : globVMatches fs p ≠ [] := by
      intro hg
      rw [hg] at hlen
      exact hlen (by simp)
    obtain ⟨m, rest, hm⟩ : ∃ m rest, sortedBackupNames fs d p = m :: rest := by
      cases hsn : sortedBackupNames fs d p with
      | nil =>
        have := length_jsSort
          (fun n q => backupComparator p (pathJoin d n) (pathJoin d q))
          (globVMatches fs p)
        rw [show jsSort (fun n q => backupComparator p (pathJoin d n) (pathJoin d q))
            (globVMatches fs p) = sortedBackupNames fs d p from rfl, hsn] at this
        exact absurd (List.length_eq_zero.mp this.symm) hnon
      | cons x xs => exact ⟨x, xs, rfl⟩
    have hmr : getMostRecentBackup fs d p = some (pathJoin d m) := by
      rw [getMostRecentBackup_eq_names, hm]
      rfl
    rw [hmr] at h
    have h2 : rmAll fs ((globVMatches fs p).filter
        (fun n => ¬ pathJoin d n = pathJoin d m)) = .ok fs' := h
    have hmmem : m ∈ globVMatches fs p :=
      mem_jsSort.mp (by rw [show jsSort _ (globVMatches fs p) = sortedBackupNames fs d p from rfl, hm]; simp)
    -- the removal list, rewritten from absolute paths to entry names
    have hfilter : (globVMatches fs p).filter (fun n => ¬ pathJoin d n = pathJoin d m)
        = (globVMatches fs p).filter (fun n => ¬ n = m) :=
      List.filter_congr (fun x _ => by
        by_cases hx : x = m
        · simp [hx]
        · have hj : ¬ pathJoin d x = pathJoin d m :=
            fun hc => hx (pathJoin_right_injective d hc)
          simp [hx, hj])
    rw [hfilter] at h2
    have hndg : (globVMatches fs p).Nodup := globVMatches_nodup hnd p
    have hndr : ((globVMatches fs p).filter (fun n => ¬ n = m)).Nodup :=
      hndg.filter _
    have hpres : ∀ x ∈ (globVMatches fs p).filter (fun n => ¬ n = m),
        (lookupEntry fs x).isSome := by
      intro x hx
      exact lookupEntry_isSome_iff.mpr
        (mem_globVMatches_iff.mp (List.mem_of_mem_filter hx)).1
    rw [rmAll_ok _ _ hndr hpres] at h2
    have hfs : ((globVMatches fs p).filter (fun n => ¬ n = m)).foldl removeEntry fs = fs' := by
      injection h2
    refine ⟨fun hcon => absurd hcon hlen, fun _ => ⟨m, hmr, ?_⟩⟩
    rw [← hfs, globVMatches_foldl_removeEntry]
    have : (globVMatches fs p).filter
        (fun x => ¬ x ∈ (globVMatches fs p).filter (fun n => ¬ n = m))
        = (globVMatches fs p).filter (fun x => x = m) :=
      List.filter_congr (fun x hx => by
        by_cases hxm : x = m
        · subst hxm
          simp [List.mem_filter]
        · simp [List.mem_filter, hx, hxm])
    rw [this]
    exact filter_eq_singleton_of_nodup hndg hmmem

theorem claim_C3_witness :
    ∃ m, getMostRecentBackup fsThreeBackups "/plugins" "adapt-hotgrid"
        = some (pathJoin "/plugins" m) ∧
      globVMatches [("adapt-hotgrid-v3.0.0", FNode.dir [])] "adapt-hotgrid" = [m] :=
  (claim_C3_prune_keeps_most_recent fsThreeBackups "/plugins" "adapt-hotgrid"
    (by decide) [("adapt-hotgrid-v3.0.0", .dir [])] rfl).2 (by decide)

/-- C9: whenever `restorePluginFromBackup` fails with the
restored-backup-metadata-unreadable error, the filesystem was already
mutated: the final state has any pre-existing canonical entry removed, the
selected most-recent backup renamed into the canonical position (it now
answers lookups at the canonical name), and the backup entry itself gone —
the failure is not atomic. -/
theorem claim_C9_restore_error_mutates (fs : FS) (d p : String) (fs' : FS)
    (h : restorePluginFromBackup fs d p = (fs', .error .metadataMissing)) :
    ∃ m node,
      getMostRecentBackup fs d p = some (pathJoin d m) ∧
      strStartsWith m (p ++ "-v") = true ∧
      fs' = removeEntry (removeCurrentIfExists fs p) m ++ [(p, node)] ∧
      lookupEntry fs' p = some node ∧
      lookupEntry fs' m = none := by
  cases hsn : (sortedBackupNames fs d p).head? with
  | none =>
    have hcall : restorePluginFromBackup fs d p = (fs, .ok none) := by
      simp only [restorePluginFromBackup, hsn]
    rw [h] at hcall
    simp [Prod.ext_iff] at hcall
  | some m =>
    -- facts about the selected backup entry
    have hgm : m ∈ globVMatches fs p := by
      have hmem : m ∈ sortedBackupNames fs d p := by
        cases hl : sortedBackupNames fs d p with
        | nil => rw [hl] at hsn; cases hsn
        | cons x xs =>
          rw [hl] at hsn
          injection hsn with hx
          rw [← hx]
          simp
      exact mem_jsSort.mp hmem
    have hpref : strStartsWith m (p ++ "-v") = true :=
      (mem_globVMatches_iff.mp hgm).2
    have hmp : ¬ m = p := ne_of_strStartsWith_v hpref
    have hT : lookupEntry (removeCurrentIfExists fs p) p = none := by
      unfold removeCurrentIfExists
      cases hfp : lookupEntry fs p with
      | some node => exact lookupEntry_removeEntry_self fs p
      | none => exact hfp
    obtain ⟨node, hnode⟩ := Option.isSome_iff_exists.mp
      (lookupEntry_isSome_iff.mpr (mem_globVMatches_iff.mp hgm).1)
    have hm1 : lookupEntry (removeCurrentIfExists fs p) m = some node := by
      unfold removeCurrentIfExists
      cases hfp : lookupEntry fs p with
      | some nodeP => rw [lookupEntry_removeEntry_ne fs hmp]; exact hnode
      | none => exact hnode
    have hren : rename (removeCurrentIfExists fs p) m p
        = .ok (removeEntry (removeCurrentIfExists fs p) m ++ [(p, node)]) := by
      simp [rename, hm1, hT]
    cases hpj : readJsonIn (removeEntry (removeCurrentIfExists fs p) m ++ [(p, node)])
        p "package.json" with
    | ok pkg =>
      have hcall : restorePluginFromBackup fs d p
          = (removeEntry (removeCurrentIfExists fs p) m ++ [(p, node)], .ok (some pkg)) := by
        simp only [restorePluginFromBackup, hsn, hren, hpj]
      rw [h] at hcall
      simp [Prod.ext_iff] at hcall
    | error e =>
      cases hbj : readJsonIn (removeEntry (removeCurrentIfExists fs p) m ++ [(p, node)])
          p "bower.json" with
      | ok pkg =>
        have hcall : restorePluginFromBackup fs d p
            = (removeEntry (removeCurrentIfExists fs p) m ++ [(p, node)], .ok (some pkg)) := by
          simp only [restorePluginFromBackup, hsn, hren, hpj, hbj]
        rw [h] at hcall
        simp [Prod.ext_iff] at hcall
      | error e2 =>
        have hcall : restorePluginFromBackup fs d p
            = (removeEntry (removeCurrentIfExists fs p) m ++ [(p, node)],
                .error .metadataMissing) := by
          simp only [restorePluginFromBackup, hsn, hren, hpj, hbj]
        rw [h] at hcall
        have hfs' : fs' = removeEntry (removeCurrentIfExists fs p) m ++ [(p, node)] :=
          congrArg Prod.fst hcall
        have hpm : ¬ p = m := fun hh => hmp hh.symm
        refine ⟨m, node, ?_, hpref, hfs', ?_, ?_⟩
        · rw [getMostRecentBackup_eq_names, hsn]
          rfl
        · rw [hfs',
            lookupEntry_append_of_none
              (by rw [lookupEntry_removeEntry_ne _ hpm]; exact hT)]
          simp [lookupEntry]
        · rw [hfs',
            lookupEntry_append_of_none (lookupEntry_removeEntry_self _ m)]
          simp [lookupEntry, hpm]

theorem claim_C9_witness :
    (∃ m node,
      getMostRecentBackup fsBadBackup "/plugins" "p"
        = some (pathJoin "/plugins" m) ∧
      strStartsWith m ("p" ++ "-v") = true ∧
      restoredC9 = removeEntry (removeCurrentIfExists fsBadBackup "p") m
        ++ [("p", node)] ∧
      lookupEntry restoredC9 "p" = some node ∧
      lookupEntry restoredC9 m = none) ∧
    globVMatches restoredC9 "p" = [] :=
  ⟨claim_C9_restore_error_mutates fsBadBackup "/plugins" "p" restoredC9 rfl,
    by decide⟩

/-- C8 (amended): whenever `processPluginFiles` fails with the
`Invalid plugin zip: …` error, the message names the resolved source path —
the path obtained after the single nested-root descent when one occurred —
which coincides with the caller-supplied path only when no descent
happened. -/
theorem claim_C8_invalid_zip_names_resolved_path (w : World)
    (pdName sourcePath pluginDir : String) (nowMs : Nat) (w' : World)
    (msg : String)
    (h : processPluginFiles w pdName sourcePath pluginDir nowMs
      = (w', .error (.invalidZip msg))) :
    msg = "Invalid plugin zip: no package.json or bower.json found in "
      ++ resolvedSourcePath w.src sourcePath := by
  by_cases hbp : sourcePath = basename sourcePath
  · have hcall : processPluginFiles w pdName sourcePath pluginDir nowMs
        = (w, .ok ⟨some pdName, some sourcePath, none, false⟩) := by
      simp only [processPluginFiles, if_pos hbp]
    rw [h] at hcall
    simp [Prod.ext_iff] at hcall
  · cases hsrc : w.src with
    | none =>
      unfold processPluginFiles at h
      rw [if_neg hbp] at h
      simp only [hsrc] at h
      simp [Prod.ext_iff] at h
    | some node =>
      cases node with
      | file data =>
        unfold processPluginFiles at h
        rw [if_neg hbp] at h
        simp only [hsrc] at h
        simp [Prod.ext_iff] at h
      | dir entries =>
        unfold processPluginFiles at h
        rw [if_neg hbp] at h
        simp only [hsrc] at h
        split at h
        · simp [Prod.ext_iff] at h
          exact h.2.symm
        · split at h
          · simp [Prod.ext_iff] at h
            exact h.2.symm
          · exact absurd h (stageLocal_no_invalidZip _ _ _ _ _ _ _ _ _)

theorem claim_C8_counterexample :
    processPluginFiles wNestedNoMeta "bad-plugin" "/tmp/src" "/plugins" 0
      = (wNestedNoMeta, .error (.invalidZip
          "Invalid plugin zip: no package.json or bower.json found in /tmp/src/nested")) ∧
    ¬ "/tmp/src/nested" = "/tmp/src" :=
  ⟨rfl, by decide⟩

theorem claim_C8_witness :
    "Invalid plugin zip: no package.json or bower.json found in /tmp/src/nested"
      = "Invalid plugin zip: no package.json or bower.json found in "
        ++ resolvedSourcePath wNestedNoMeta.src "/tmp/src" :=
  claim_C8_invalid_zip_names_resolved_path wNestedNoMeta "bad-plugin" "/tmp/src"
    "/plugins" 0 wNestedNoMeta
    "Invalid plugin zip: no package.json or bower.json found in /tmp/src/nested" rfl

end ContentPlugin
